import Mathlib

/-!
Verification of the qscan network scanner core (`src/qscan/src/qscanner.rs`)
against its natural-language specification.

Rust strings are modelled as `List Char`, machine integers (`u16`, `u8`) as
`Nat` (their arithmetic here never overflows: values are bounded by parsing),
IP addresses as `Nat` (an opaque identifier: no claim depends on the internal
structure of an address), and fallible or panicking code as `Option`-valued
functions (`none` models a panic / `Err`).  Effectful collaborators (the CIDR
parser, the platform resolver, the fallback TLS resolver, the filesystem) are
parameters gathered in a `ResolveEnv`, so that the pure control flow of the
repository's functions is the object of study.
-/

/-- Model of `char::is_whitespace` restricted to the ASCII whitespace that the
test-suite inputs exercise. -/
def isWs (c : Char) : Bool := c = ' ' || c = '\t' || c = '\n' || c = '\r'

/-- Model of `ports.chars().filter(|c| !c.is_whitespace()).collect()`. -/
def stripWs (s : List Char) : List Char := s.filter (fun c => !isWs c)

/-- Accumulator loop for `str::split(sep)`. -/
def splitAux (sep : Char) : List Char → List Char → List (List Char)
  | [], acc => [acc.reverse]
  | c :: rest, acc =>
    if c = sep then acc.reverse :: splitAux sep rest []
    else splitAux sep rest (c :: acc)

/-- Model of Rust `str::split(sep)`: splitting the empty string yields one
empty piece, `"a,b"` yields `["a", "b"]`, `","` yields `["", ""]`. -/
def splitOnChar (sep : Char) (s : List Char) : List (List Char) :=
  splitAux sep s []

/-- Numeric value of a digit string (most significant digit first). -/
def natOfDigits (s : List Char) : Nat :=
  s.foldl (fun acc c => acc * 10 + (c.toNat - 48)) 0

/-- Model of `str::parse::<u16>()`: an optional leading `+`, then one or more
decimal digits, value at most `65535`; anything else is a parse error. -/
def parseU16 (s : List Char) : Option Nat :=
  let t := if s.head? = some '+' then s.tail else s
  if t.isEmpty then none
  else if t.all Char.isDigit then
    if natOfDigits t ≤ 65535 then some (natOfDigits t) else none
  else none

/-- Model of `iter.map(f).collect::<Result<Vec<_>, _>>()`: the first failure
aborts the whole collection. -/
def collectOpt (f : α → Option β) : List α → Option (List β)
  | [] => some []
  | a :: as => (f a).bind (fun b => (collectOpt f as).map (fun bs => b :: bs))

/-- First-occurrence deduplication, keeping track of the elements seen so
far.  Models `itertools::unique`. -/
def dedupFirstAux [DecidableEq α] : List α → List α → List α
  | [], _ => []
  | x :: xs, seen =>
    if x ∈ seen then dedupFirstAux xs seen else x :: dedupFirstAux xs (x :: seen)

/-- Model of `vec.into_iter().unique().collect()`: first-occurrence-preserving
deduplication. -/
def dedupFirst [DecidableEq α] (l : List α) : List α := dedupFirstAux l []

/-- Contribution of one non-empty token of the port specification:
`range.len() == 1` pushes the value, `range.len() == 2` pushes the inclusive
ascending interval, any parse failure or other component count panics
(modelled by `none`). -/
def tokenPorts (tok : List Char) : Option (List Nat) :=
  (collectOpt parseU16 (splitOnChar '-' tok)).bind (fun range =>
    match range with
    | [x] => some [x]
    | [x, y] => some (List.range' x (y + 1 - x))
    | _ => none)

/-- Model of `ports_parse`: strip whitespace, split on commas, skip empty
tokens, expand each token, deduplicate preserving first occurrence.  `none`
models the panics (`unwrap` on a parse error, `panic!` on a bad component
count). -/
def ports_parse (ports : List Char) : Option (List Nat) :=
  (collectOpt tokenPorts
      (((splitOnChar ',' (stripWs ports))).filter (fun t => !t.isEmpty))).map
    (fun ls => dedupFirst ls.flatten)

/-- A claim-side well-formed component: a non-empty string of decimal digits
whose value fits in 16 bits. -/
def isDecimalTok (s : List Char) : Bool :=
  !s.isEmpty && s.all Char.isDigit && decide (natOfDigits s ≤ 65535)

/-- A claim-side well-formed token: a decimal integer or a pair `a-b` of
decimal integers. -/
def wfTok (tok : List Char) : Bool :=
  match splitOnChar '-' tok with
  | [x] => isDecimalTok x
  | [x, y] => isDecimalTok x && isDecimalTok y
  | _ => false

/-- Contribution of one token, in the specification's words: a single integer
contributes itself, a range `a-b` contributes the inclusive interval `[a, b]`
in ascending order (empty when `a > b`). -/
def tokenPortsSpec (tok : List Char) : List Nat :=
  match splitOnChar '-' tok with
  | [x] => [natOfDigits x]
  | [x, y] => List.range' (natOfDigits x) (natOfDigits y + 1 - natOfDigits x)
  | _ => []

/-- The specification's description of port parsing: skip empty tokens,
concatenate the per-token contributions, deduplicate preserving first
occurrence. -/
def portsSpec (s : List Char) : List Nat :=
  dedupFirst
    ((((splitOnChar ',' (stripWs s)).filter (fun t => !t.isEmpty)).map tokenPortsSpec).flatten)

lemma parseU16_of_isDecimalTok {s : List Char} (h : isDecimalTok s = true) :
    parseU16 s = some (natOfDigits s) := by
  unfold isDecimalTok at h
  simp only [Bool.and_eq_true, decide_eq_true_eq, Bool.not_eq_true'] at h
  obtain ⟨⟨hne, hdig⟩, hle⟩ := h
  unfold parseU16
  have hplus : (s.head? = some '+') = False := by
    cases s with
    | nil => simp
    | cons c rest =>
      simp only [List.head?_cons, Option.some.injEq, eq_iff_iff, iff_false]
      intro hc
      subst hc
      have hd : ('+').isDigit = true := by
        have := List.all_eq_true.mp hdig
        simpa using this '+' (by simp)
      simp [Char.isDigit] at hd
  simp only [hplus, if_false]
  simp [hne, hdig, hle]

lemma collectOpt_of_all_some {f : α → Option β} {g : α → β} :
    ∀ {l : List α}, (∀ a ∈ l, f a = some (g a)) →
      collectOpt f l = some (l.map g)
  | [], _ => rfl
  | a :: as, h => by
    have ha := h a (by simp)
    have has : ∀ x ∈ as, f x = some (g x) := fun x hx => h x (by simp [hx])
    simp [collectOpt, ha, collectOpt_of_all_some has]

lemma collectOpt_eq_none {f : α → Option β} :
    ∀ {l : List α} {a : α}, a ∈ l → f a = none → collectOpt f l = none := by
  intro l
  induction l with
  | nil => intro a h; simp at h
  | cons b bs ih =>
    intro a h hnone
    rcases List.mem_cons.mp h with rfl | hmem
    · simp [collectOpt, hnone]
    · cases hb : f b with
      | none => simp [collectOpt, hb]
      | some v => simp [collectOpt, hb, ih hmem hnone]

lemma tokenPorts_of_wf {tok : List Char} (h : wfTok tok = true) :
    tokenPorts tok = some (tokenPortsSpec tok) := by
  unfold wfTok at h
  unfold tokenPorts tokenPortsSpec
  cases hs : splitOnChar '-' tok with
  | nil => rw [hs] at h; simp at h
  | cons x rest =>
    cases rest with
    | nil =>
      rw [hs] at h
      have hx := parseU16_of_isDecimalTok h
      simp [collectOpt, hx]
    | cons y rest2 =>
      cases rest2 with
      | nil =>
        rw [hs] at h
        simp only [Bool.and_eq_true] at h
        have hx := parseU16_of_isDecimalTok h.1
        have hy := parseU16_of_isDecimalTok h.2
        simp [collectOpt, hx, hy]
      | cons z rest3 => rw [hs] at h; simp at h

/-- Claim C7: on a well-formed port specification (each non-empty token a
decimal integer or a pair of decimal integers) `ports_parse` succeeds and
returns exactly the specification-side value: empty tokens skipped, a single
integer contributing itself, a range `a-b` contributing the inclusive
ascending interval, the concatenation deduplicated preserving first
occurrence. -/
theorem ports_parse_wellformed (s : List Char)
    (hwf : ∀ tok ∈ splitOnChar ',' (stripWs s), tok ≠ [] → wfTok tok = true) :
    ports_parse s = some (portsSpec s) := by
  unfold ports_parse portsSpec
  have hall : ∀ tok ∈ (splitOnChar ',' (stripWs s)).filter (fun t => !t.isEmpty),
      tokenPorts tok = some (tokenPortsSpec tok) := by
    intro tok htok
    have hmem := List.mem_filter.mp htok
    have hne : tok ≠ [] := by
      have := hmem.2
      simp only [Bool.not_eq_true', List.isEmpty_eq_false_iff_exists_mem] at this
      rcases this with ⟨x, hx⟩
      exact List.ne_nil_of_mem hx
    exact tokenPorts_of_wf (hwf tok hmem.1 hne)
  rw [collectOpt_of_all_some hall]
  rfl

/-- Witness for C7 at the specification's own example: `"80,79-81"` is
well-formed and parses to `[80, 79, 81]` (order preserved, `80` not
re-emitted by the range). -/
theorem ports_parse_wellformed_witness :
    (∀ tok ∈ splitOnChar ',' (stripWs (("80,79-81").toList)), tok ≠ [] → wfTok tok = true)
    ∧ ports_parse (("80,79-81").toList) = some (portsSpec (("80,79-81").toList))
    ∧ portsSpec (("80,79-81").toList) = [80, 79, 81] := by
  refine ⟨by decide, ports_parse_wellformed (("80,79-81").toList) (by decide), by decide⟩

/-- Claim C10: a token containing a component that is not a decimal integer
representable in 16 bits makes `ports_parse` abort the whole call (result
`none`, modelling the panic): the token is never silently skipped and never
contributes a partial result. -/
theorem ports_parse_abort (s tok comp : List Char)
    (htok : tok ∈ splitOnChar ',' (stripWs s)) (hne : tok.isEmpty = false)
    (hcomp : comp ∈ splitOnChar '-' tok) (hbad : parseU16 comp = none) :
    ports_parse s = none := by
  have htp : tokenPorts tok = none := by
    unfold tokenPorts
    rw [collectOpt_eq_none hcomp hbad]
    rfl
  have hmem : tok ∈ (splitOnChar ',' (stripWs s)).filter (fun t => !t.isEmpty) :=
    List.mem_filter.mpr ⟨htok, by simp [hne]⟩
  unfold ports_parse
  rw [collectOpt_eq_none hmem htp]
  rfl

/-- Witness for C10 on the three example inputs: an empty range bound
(`"80-"`), a non-numeric token (`"abc"`), and a value not representable in 16
bits (`"70000"`) each abort the call. -/
theorem ports_parse_abort_witness :
    (("80-").toList ∈ splitOnChar ',' (stripWs (("80-").toList))
      ∧ (("80-").toList).isEmpty = false
      ∧ ([] : List Char) ∈ splitOnChar '-' (("80-").toList)
      ∧ parseU16 [] = none
      ∧ ports_parse (("80-").toList) = none)
    ∧ ports_parse (("abc").toList) = none
    ∧ ports_parse (("70000").toList) = none := by
  refine ⟨⟨by decide, by decide, by decide, by decide,
    ports_parse_abort (("80-").toList) (("80-").toList) [] (by decide) (by decide)
      (by decide) (by decide)⟩, ?_, ?_⟩
  · exact ports_parse_abort (("abc").toList) (("abc").toList) (("abc").toList)
      (by decide) (by decide) (by decide) (by decide)
  · exact ports_parse_abort (("70000").toList) (("70000").toList) (("70000").toList)
      (by decide) (by decide) (by decide) (by decide)

/-- An IP address together with a port: model of `std::net::SocketAddr` as
built by the scanner.  Addresses are opaque identifiers. -/
structure SocketAddr where
  ip : Nat
  port : Nat
deriving DecidableEq

/-- The stream of endpoints produced by `sockiter::SockIter::new(ips, ports)`:
`iproduct!(ports, ips)` pulls ports on the outer loop and hosts on the inner
loop, and each `(port, ip)` pair is turned into `SocketAddr::new(*ip, *port)`.
The lazy cursor is modelled by this list together with positional pulling
(`l[i]?`, with `none` as end-of-stream). -/
def sockIterList (ips ports : List Nat) : List SocketAddr :=
  ports.flatMap (fun p => ips.map (fun ip => SocketAddr.mk ip p))

lemma sockIterList_cons (ips : List Nat) (p : Nat) (ps : List Nat) :
    sockIterList ips (p :: ps) =
      ips.map (fun ip => SocketAddr.mk ip p) ++ sockIterList ips ps := rfl

lemma sockIterList_length (ips ports : List Nat) :
    (sockIterList ips ports).length = ports.length * ips.length := by
  induction ports with
  | nil => simp [sockIterList]
  | cons p ps ih =>
    rw [sockIterList_cons]
    simp only [List.length_append, List.length_map, ih, List.length_cons]
    ring

lemma sockIterList_getElem? (ips : List Nat) :
    ∀ (ports : List Nat) (i : Nat) (hm : i % ips.length < ips.length)
      (hd : i / ips.length < ports.length),
      (sockIterList ips ports)[i]? =
        some ⟨ips.get ⟨i % ips.length, hm⟩, ports.get ⟨i / ips.length, hd⟩⟩ := by
  intro ports
  induction ports with
  | nil => intro i hm hd; simp at hd
  | cons p ps ih =>
    intro i hm hd
    have hL : 0 < ips.length := Nat.lt_of_le_of_lt (Nat.zero_le _) hm
    by_cases hi : i < ips.length
    · rw [sockIterList_cons, List.getElem?_append_left (by simp [hi])]
      simp [Nat.mod_eq_of_lt hi, Nat.div_eq_of_lt hi, List.getElem?_eq_getElem hi,
        List.get_eq_getElem]
    · push_neg at hi
      obtain ⟨j, rfl⟩ : ∃ j, i = j + ips.length :=
        ⟨i - ips.length, (Nat.sub_add_cancel hi).symm⟩
      have hm' : j % ips.length < ips.length := Nat.mod_lt _ hL
      have hd' : j / ips.length < ps.length := by
        have := hd
        rw [Nat.add_div_right _ hL] at this
        simpa using this
      rw [sockIterList_cons,
        List.getElem?_append_right (by simp only [List.length_map]; omega)]
      simp only [List.length_map, Nat.add_sub_cancel]
      rw [ih j hm' hd']
      simp [Nat.add_div_right _ hL, Nat.add_mod_right, List.get_eq_getElem]

lemma sockIterList_nodup {ips ports : List Nat} (hni : ips.Nodup)
    (hnp : ports.Nodup) : (sockIterList ips ports).Nodup := by
  unfold sockIterList
  rw [List.nodup_flatMap]
  refine ⟨fun p _ => hni.map (fun a b h => by injection h), ?_⟩
  refine hnp.imp ?_
  intro p q hpq x hx hy
  simp only [List.mem_map] at hx hy
  obtain ⟨a, _, rfl⟩ := hx
  obtain ⟨b, _, hba⟩ := hy
  exact hpq (congrArg SocketAddr.port hba).symm

/-- Claim C6: the Socket Iterator yields exactly `|P| * |H|` endpoints, ports
outermost and hosts innermost: the `i`-th endpoint pulled is the pair
`(H[i mod |H|], P[i div |H|])`, each `(host, port)` pair of duplicate-free
input sequences is yielded exactly once, and pulling past the end returns
end-of-stream (`none`). -/
theorem sockiter_cross_product (ips ports : List Nat) (i : Nat) (e : SocketAddr)
    (hm : i % ips.length < ips.length) (hd : i / ips.length < ports.length)
    (hni : ips.Nodup) (hnp : ports.Nodup) (he : e ∈ sockIterList ips ports) :
    (sockIterList ips ports).length = ports.length * ips.length
    ∧ (sockIterList ips ports)[i]? =
        some ⟨ips.get ⟨i % ips.length, hm⟩, ports.get ⟨i / ips.length, hd⟩⟩
    ∧ (sockIterList ips ports).count e = 1
    ∧ (sockIterList ips ports)[ports.length * ips.length]? = none := by
  refine ⟨sockIterList_length ips ports, sockIterList_getElem? ips ports i hm hd, ?_, ?_⟩
  · exact List.count_eq_one_of_mem (sockIterList_nodup hni hnp) he
  · exact List.getElem?_eq_none (by rw [sockIterList_length])

/-- Witness for C6 on `H = [4, 5]`, `P = [7, 8]`: four endpoints, the pull at
index `3` is `(H[1], P[1]) = (5, 8)`, the endpoint `(5, 7)` occurs exactly
once, and the pull at index `4` is end-of-stream. -/
theorem sockiter_cross_product_witness :
    (sockIterList [4, 5] [7, 8]).length = ([7, 8] : List Nat).length * ([4, 5] : List Nat).length
    ∧ (sockIterList [4, 5] [7, 8])[3]? =
        some ⟨([4, 5] : List Nat).get ⟨3 % ([4, 5] : List Nat).length, by decide⟩,
              ([7, 8] : List Nat).get ⟨3 / ([4, 5] : List Nat).length, by decide⟩⟩
    ∧ (sockIterList [4, 5] [7, 8]).count ⟨5, 7⟩ = 1
    ∧ (sockIterList [4, 5] [7, 8])[([7, 8] : List Nat).length * ([4, 5] : List Nat).length]? = none :=
  sockiter_cross_product [4, 5] [7, 8] 3 ⟨5, 7⟩ (by decide) (by decide) (by decide)
    (by decide) (by decide)

/-- Possible states of a TCP connect target (`QScanTcpConnectState`). -/
inductive QScanTcpConnectState
  | Open
  | Close
deriving DecidableEq

/-- Result of a TCP connect scan for a single target
(`QScanTcpConnectResult`). -/
structure QScanTcpConnectResult where
  target : SocketAddr
  state : QScanTcpConnectState
deriving DecidableEq

/-- State of the refill-on-completion loop of `scan_tcp_connect`: the
endpoints not yet pulled from the Socket Iterator, the multiset of in-flight
probe futures (`FuturesUnordered`, as a list whose order carries no meaning:
a completion may pick any element), and the accumulated result vector
`sock_res`. -/
structure SchedState where
  pending : List SocketAddr
  inflight : List SocketAddr
  results : List QScanTcpConnectResult
deriving DecidableEq

/-- The state after the initial fill loop `for _ in 0..self.batch`: up to
`batch` endpoints are pulled and submitted, the rest stay in the iterator. -/
def initState (batch : Nat) (eps : List SocketAddr) : SchedState :=
  ⟨eps.drop batch, eps.take batch, []⟩

/-- One iteration of `while let Some(result) = ftrs.next().await`: an
arbitrary in-flight probe `e` completes, at most one endpoint is pulled from
the iterator and submitted, and the completed probe's outcome (its state
given by the probe semantics `st`, its target always the probed socket) is
appended to the results. -/
inductive SchedStep (st : SocketAddr → QScanTcpConnectState) :
    SchedState → SchedState → Prop
  | complete (pending l r : List SocketAddr) (e : SocketAddr)
      (results : List QScanTcpConnectResult) :
      SchedStep st ⟨pending, l ++ e :: r, results⟩
        ⟨pending.drop 1, (l ++ r) ++ pending.take 1,
          results ++ [⟨e, st e⟩]⟩

/-- Reachability in the scheduler's small-step semantics. -/
def SchedReach (st : SocketAddr → QScanTcpConnectState) :
    SchedState → SchedState → Prop :=
  Relation.ReflTransGen (SchedStep st)

/-- Every endpoint of the scheduler lives in exactly one place: the iterator,
the in-flight set, or (as a target) the result vector. -/
def allItems (s : SchedState) : List SocketAddr :=
  s.pending ++ s.inflight ++ s.results.map QScanTcpConnectResult.target

/-- Invariant of the scheduler loop: the items are a permutation of the full
endpoint stream, and the in-flight set is empty only once the iterator has
drained (this needs `batch ≥ 1`). -/
def schedInv (eps : List SocketAddr) (s : SchedState) : Prop :=
  (allItems s).Perm eps ∧ (s.pending ≠ [] → s.inflight ≠ [])

lemma take_one_count (pending : List SocketAddr) (a : SocketAddr) :
    (List.take 1 pending).count a + pending.tail.count a =
      pending.count a := by
  conv_rhs => rw [← List.take_append_drop 1 pending]
  rw [List.count_append, List.drop_one]

lemma schedStep_perm {st : SocketAddr → QScanTcpConnectState}
    {s s' : SchedState} (hstep : SchedStep st s s') :
    (allItems s').Perm (allItems s) := by
  cases hstep with
  | complete pending l r e results =>
    rw [List.perm_iff_count]
    intro a
    have hpd := take_one_count pending a
    simp only [allItems, List.drop_one, List.map_append, List.map_cons,
      List.map_nil, List.count_append, List.count_cons, List.count_nil]
    split_ifs <;> omega

lemma schedInv_init {eps : List SocketAddr} {batch : Nat} (hb : 1 ≤ batch) :
    schedInv eps (initState batch eps) := by
  constructor
  · simp only [allItems, initState, List.map_nil, List.append_nil]
    exact List.perm_append_comm.trans (by rw [List.take_append_drop])
  · intro hp ht
    simp only [initState] at hp ht
    have hlen : batch < eps.length := by
      by_contra h
      push_neg at h
      exact hp (List.drop_eq_nil_of_le h)
    rw [List.take_eq_nil_iff] at ht
    rcases ht with h1 | h2
    · omega
    · rw [h2] at hlen
      simp at hlen

lemma schedInv_step {st : SocketAddr → QScanTcpConnectState}
    {eps : List SocketAddr} {s s' : SchedState}
    (hstep : SchedStep st s s') (hinv : schedInv eps s) : schedInv eps s' := by
  obtain ⟨hperm, hne⟩ := hinv
  refine ⟨(schedStep_perm hstep).trans hperm, ?_⟩
  cases hstep with
  | complete pending l r e results =>
    intro hp' hcontra
    have hp : pending ≠ [] := by
      intro h
      rw [h] at hp'
      exact hp' rfl
    have ht : List.take 1 pending ≠ [] := by
      intro h
      rw [List.take_eq_nil_iff] at h
      rcases h with h1 | h2
      · exact absurd h1 one_ne_zero
      · exact hp h2
    exact ht (List.append_eq_nil.mp hcontra).2

lemma schedInv_reach {st : SocketAddr → QScanTcpConnectState}
    {eps : List SocketAddr} {batch : Nat} {s : SchedState} (hb : 1 ≤ batch)
    (h : SchedReach st (initState batch eps) s) : schedInv eps s := by
  induction h with
  | refl => exact schedInv_init hb
  | tail _ hstep ih => exact schedInv_step hstep ih

/-- Claim C1: with `batch ≥ 1`, when the scheduler loop of `scan_tcp_connect`
terminates (no probe left in flight), the accumulated vector — which becomes
`last_results` — holds exactly one Outcome per endpoint of the cross-product:
its length is `|hosts| * |ports|`, the multiset of its targets is the
endpoint stream, and for duplicate-free host and port sequences every
endpoint appears exactly once. -/
theorem scan_tcp_connect_results (st : SocketAddr → QScanTcpConnectState)
    (ips ports : List Nat) (batch : Nat) (s : SchedState) (e : SocketAddr)
    (hb : 1 ≤ batch)
    (hr : SchedReach st (initState batch (sockIterList ips ports)) s)
    (hterm : s.inflight = []) :
    s.results.length = ips.length * ports.length
    ∧ (s.results.map QScanTcpConnectResult.target).count e =
        (sockIterList ips ports).count e
    ∧ (ips.Nodup → ports.Nodup → e ∈ sockIterList ips ports →
        (s.results.map QScanTcpConnectResult.target).count e = 1) := by
  obtain ⟨hperm, hne⟩ := schedInv_reach hb hr
  have hp : s.pending = [] := by
    by_contra h
    exact hne h hterm
  unfold allItems at hperm
  rw [hp, hterm] at hperm
  simp only [List.nil_append] at hperm
  refine ⟨?_, hperm.count_eq e, ?_⟩
  · have hlen := hperm.length_eq
    rw [List.length_map] at hlen
    rw [hlen, sockIterList_length]
    ring
  · intro hni hnp hmem
    rw [hperm.count_eq e]
    exact List.count_eq_one_of_mem (sockIterList_nodup hni hnp) hmem

/-- A fixed probe semantics for the witnesses: every probe reports Open. -/
def stW : SocketAddr → QScanTcpConnectState := fun _ => QScanTcpConnectState.Open

/-- Witness for C1: hosts `[0, 1]`, port `[5]`, `batch = 1`.  The run that
submits `(0,5)`, completes it, refills with `(1,5)` and completes it reaches
the terminal state whose two results cover the cross-product exactly once. -/
theorem scan_tcp_connect_results_witness :
    (SchedState.mk [] []
        [⟨⟨0, 5⟩, QScanTcpConnectState.Open⟩,
         ⟨⟨1, 5⟩, QScanTcpConnectState.Open⟩]).results.length
      = ([0, 1] : List Nat).length * ([5] : List Nat).length
    ∧ ((SchedState.mk [] []
          [⟨⟨0, 5⟩, QScanTcpConnectState.Open⟩,
           ⟨⟨1, 5⟩, QScanTcpConnectState.Open⟩]).results.map
            QScanTcpConnectResult.target).count ⟨0, 5⟩
        = (sockIterList [0, 1] [5]).count ⟨0, 5⟩
    ∧ (([0, 1] : List Nat).Nodup → ([5] : List Nat).Nodup →
        (⟨0, 5⟩ : SocketAddr) ∈ sockIterList [0, 1] [5] →
        ((SchedState.mk [] []
            [⟨⟨0, 5⟩, QScanTcpConnectState.Open⟩,
             ⟨⟨1, 5⟩, QScanTcpConnectState.Open⟩]).results.map
              QScanTcpConnectResult.target).count ⟨0, 5⟩ = 1) := by
  refine scan_tcp_connect_results stW [0, 1] [5] 1 _ ⟨0, 5⟩ (by decide) ?_ rfl
  exact Relation.ReflTransGen.tail
    (Relation.ReflTransGen.tail Relation.ReflTransGen.refl
      (SchedStep.complete [⟨1, 5⟩] [] [] ⟨0, 5⟩ []))
    (SchedStep.complete [] [] [] ⟨1, 5⟩
      [⟨⟨0, 5⟩, QScanTcpConnectState.Open⟩])

lemma schedStep_inflight_le {st : SocketAddr → QScanTcpConnectState}
    {s s' : SchedState} (hstep : SchedStep st s s') :
    s'.inflight.length ≤ s.inflight.length := by
  cases hstep with
  | complete pending l r e results =>
    simp only [List.length_append, List.length_take, List.length_cons]
    omega

/-- Claim C3: throughout a scan the number of in-flight probe futures never
exceeds `batch` (at most `batch` are submitted by the initial fill), and the
refill is one-in / one-out: a completion step taken while the iterator still
has pending endpoints leaves the in-flight occupancy exactly unchanged. -/
theorem scan_tcp_connect_inflight_bound (st : SocketAddr → QScanTcpConnectState)
    (ips ports : List Nat) (batch : Nat) (s s' : SchedState)
    (hr : SchedReach st (initState batch (sockIterList ips ports)) s) :
    s.inflight.length ≤ batch
    ∧ (SchedStep st s s' → s.pending ≠ [] →
        s'.inflight.length = s.inflight.length) := by
  constructor
  · induction hr with
    | refl =>
      simp only [initState, List.length_take]
      exact Nat.min_le_left _ _
    | tail _ hstep ih => exact le_trans (schedStep_inflight_le hstep) ih
  · intro hstep hp
    cases hstep with
    | complete pending l r e results =>
      have hlen : 0 < pending.length := List.length_pos.mpr hp
      simp only [List.length_append, List.length_take, List.length_cons]
      omega

/-- Witness for C3 at the initial state of the same run as the C1 witness:
the initial fill is within the ceiling, and the first completion-and-refill
step preserves occupancy. -/
theorem scan_tcp_connect_inflight_bound_witness :
    (initState 1 (sockIterList [0, 1] [5])).inflight.length ≤ 1
    ∧ (SchedStep stW (initState 1 (sockIterList [0, 1] [5]))
          (SchedState.mk [] [⟨1, 5⟩] [⟨⟨0, 5⟩, QScanTcpConnectState.Open⟩]) →
        (initState 1 (sockIterList [0, 1] [5])).pending ≠ [] →
        (SchedState.mk [] [⟨1, 5⟩]
            [⟨⟨0, 5⟩, QScanTcpConnectState.Open⟩]).inflight.length =
          (initState 1 (sockIterList [0, 1] [5])).inflight.length) :=
  scan_tcp_connect_inflight_bound stW [0, 1] [5] 1 _ _ Relation.ReflTransGen.refl

/-- The needle of the file-descriptor-exhaustion check. -/
def tmofNeedle : List Char := ("too many open files").toList

/-- Whether a candidate starts with the needle. -/
def listStarts : List Char → List Char → Bool
  | [], _ => true
  | _ :: _, [] => false
  | a :: as, b :: bs => a = b && listStarts as bs

/-- Model of Rust `str::contains(needle)`: some suffix of the haystack starts
with the needle. -/
def containsSublist (needle : List Char) : List Char → Bool
  | [] => listStarts needle []
  | c :: rest => listStarts needle (c :: rest) || containsSublist needle rest

/-- Model of `err_str.to_lowercase().contains("too many open files")`:
case-insensitive detection of file-descriptor exhaustion. -/
def tmof (msg : List Char) : Bool :=
  containsSublist tmofNeedle (msg.map Char.toLower)

/-- Outcome of one `tcp_connect` attempt as observed by the retry loop of
`scan_socket_tcp_connect`: the timeout elapsed (`Err(Elapsed)`), the connect
returned an error (`Ok(Err(e))`), or the connect succeeded and the subsequent
`shutdown` either succeeded or failed (`Ok(Ok(stream))`).  The whole scan of
one endpoint is driven by a function `att : Nat → AttemptRes` giving the
result the network would produce for each attempt index. -/
inductive AttemptRes
  | timeout (msg : List Char)
  | connErr (msg : List Char)
  | connOk (shutdownOk : Bool)
deriving DecidableEq

/-- Result of `scan_socket_tcp_connect`: `Ok(socket)` (port open),
`Err(QScanError)` carrying the reason and the socket (port closed), the
`panic!` on file-descriptor exhaustion carrying the `batch` named in its
diagnostic, or the `unreachable!()` after the loop. -/
inductive ProbeResult
  | ok (sock : SocketAddr)
  | err (msg : List Char) (sock : SocketAddr)
  | fatal (batch : Nat)
  | unreach
deriving DecidableEq

/-- The message of the `QScanError` built when `shutdown` fails. -/
def shutdownErrMsg : List Char := ("Shutdown error").toList

/-- `err_str.push(' '); err_str.push_str(&socket.ip().to_string())`: the
stringified error with the host address appended, for a rendering `ipStr` of
addresses. -/
def appendIpMsg (msg : List Char) (ipStr : Nat → List Char)
    (sock : SocketAddr) : List Char :=
  msg ++ ' ' :: ipStr sock.ip

/-- The body of `for ntry in 0..tries` in `scan_socket_tcp_connect`, at loop
index `ntry` with `rem` iterations left (`rem = tries - ntry` throughout);
`rem = 0` is the `unreachable!()` after the loop. -/
def scanSocketAux (tries batch : Nat) (ipStr : Nat → List Char)
    (att : Nat → AttemptRes) (sock : SocketAddr) : Nat → Nat → ProbeResult
  | _, 0 => ProbeResult.unreach
  | ntry, rem + 1 =>
    match att ntry with
    | AttemptRes.connOk sdOk =>
      if sdOk then ProbeResult.ok sock
      else ProbeResult.err shutdownErrMsg sock
    | AttemptRes.connErr msg =>
      if tmof msg then ProbeResult.fatal batch
      else if ntry = tries - 1 then
        ProbeResult.err (appendIpMsg msg ipStr sock) sock
      else scanSocketAux tries batch ipStr att sock (ntry + 1) rem
    | AttemptRes.timeout msg =>
      if ntry = tries - 1 then
        ProbeResult.err (appendIpMsg msg ipStr sock) sock
      else scanSocketAux tries batch ipStr att sock (ntry + 1) rem

/-- Model of `scan_socket_tcp_connect`: run the retry loop from attempt `0`
with `tries` iterations available. -/
def scanSocket (tries batch : Nat) (ipStr : Nat → List Char)
    (att : Nat → AttemptRes) (sock : SocketAddr) : ProbeResult :=
  scanSocketAux tries batch ipStr att sock 0 tries

/-- A failure that the retry loop retries (or surfaces on the last attempt):
a timeout, or a connect error that is not file-descriptor exhaustion.
Returns the error message. -/
def isFailMsg : AttemptRes → Option (List Char)
  | AttemptRes.timeout msg => some msg
  | AttemptRes.connErr msg => if tmof msg then none else some msg
  | AttemptRes.connOk _ => none

/-- A probe result that the scheduler converts into an Outcome (Open or
Closed) — as opposed to the fatal panic and the unreachable marker. -/
def isTerminalOutcome : ProbeResult → Bool
  | ProbeResult.ok _ => true
  | ProbeResult.err _ _ => true
  | ProbeResult.fatal _ => false
  | ProbeResult.unreach => false

lemma scanSocketAux_congr (tries batch : Nat) (ipStr : Nat → List Char)
    (att att2 : Nat → AttemptRes) (sock : SocketAddr) :
    ∀ rem ntry, ntry + rem ≤ tries → (∀ j, j < tries → att j = att2 j) →
      scanSocketAux tries batch ipStr att sock ntry rem =
        scanSocketAux tries batch ipStr att2 sock ntry rem := by
  intro rem
  induction rem with
  | zero => intro ntry h hag; rfl
  | succ n ih =>
    intro ntry h hag
    have hj : ntry < tries := by omega
    simp only [scanSocketAux]
    rw [← hag ntry hj]
    cases ha : att ntry with
    | connOk b => rfl
    | connErr m =>
      by_cases htm : tmof m
      · simp [htm]
      · by_cases hl : ntry = tries - 1
        · simp [htm, hl]
        · simp [htm, hl, ih (ntry + 1) (by omega) hag]
    | timeout m =>
      by_cases hl : ntry = tries - 1
      · simp [hl]
      · simp [hl, ih (ntry + 1) (by omega) hag]

/-- Claim C4: for a probe with `tries = t ≥ 1`, a retryable failure (connect
error other than file-descriptor exhaustion, or timeout) at 0-based attempt
index `k` moves the loop to attempt `k + 1` when `k + 1 < t`, and terminates
the probe when `k + 1 = t` as Closed with reason the stringified error with
the host address appended; and the probe consults at most the first `t`
attempt results (at most `t` connect attempts are made). -/
theorem scan_socket_retry (tries batch k : Nat) (ipStr : Nat → List Char)
    (att att2 : Nat → AttemptRes) (sock : SocketAddr) (msg : List Char)
    (ht : 1 ≤ tries) (hm : isFailMsg (att k) = some msg)
    (hagree : ∀ j, j < tries → att j = att2 j) :
    (k + 1 < tries →
      scanSocketAux tries batch ipStr att sock k (tries - k) =
        scanSocketAux tries batch ipStr att sock (k + 1) (tries - (k + 1)))
    ∧ (k + 1 = tries →
      scanSocketAux tries batch ipStr att sock k (tries - k) =
        ProbeResult.err (appendIpMsg msg ipStr sock) sock)
    ∧ scanSocket tries batch ipStr att sock =
        scanSocket tries batch ipStr att2 sock := by
  refine ⟨?_, ?_, ?_⟩
  · intro hlt
    rw [show tries - k = (tries - (k + 1)) + 1 from by omega]
    cases ha : att k with
    | timeout m =>
      simp only [scanSocketAux, ha]
      rw [if_neg (by omega)]
    | connErr m =>
      rw [ha] at hm
      simp only [isFailMsg] at hm
      by_cases htm : tmof m
      · rw [if_pos htm] at hm
        exact absurd hm (by simp)
      · simp only [scanSocketAux, ha]
        rw [if_neg htm, if_neg (by omega)]
    | connOk b =>
      rw [ha] at hm
      simp [isFailMsg] at hm
  · intro heq
    have hk : k = tries - 1 := by omega
    rw [show tries - k = 1 from by omega]
    cases ha : att k with
    | timeout m =>
      rw [ha] at hm
      simp only [isFailMsg, Option.some.injEq] at hm
      subst hm
      simp only [scanSocketAux, ha]
      rw [if_pos hk]
    | connErr m =>
      rw [ha] at hm
      simp only [isFailMsg] at hm
      by_cases htm : tmof m
      · rw [if_pos htm] at hm
        exact absurd hm (by simp)
      · rw [if_neg htm] at hm
        simp only [Option.some.injEq] at hm
        subst hm
        simp only [scanSocketAux, ha]
        rw [if_neg htm, if_pos hk]
    | connOk b =>
      rw [ha] at hm
      simp [isFailMsg] at hm
  · exact scanSocketAux_congr tries batch ipStr att att2 sock tries 0 (by omega) hagree

/-- A rendering of addresses for the witnesses (its content is irrelevant to
the control flow). -/
def ipStrW : Nat → List Char := fun _ => []

/-- A fixed endpoint for the probe witnesses. -/
def sockW : SocketAddr := ⟨3, 4⟩

/-- Attempt results for the C4 witness: a timeout on attempt 0, then a
retryable connect error. -/
def attW : Nat → AttemptRes := fun j =>
  if j = 0 then AttemptRes.timeout (("t").toList)
  else AttemptRes.connErr (("c").toList)

/-- Witness for C4 with `tries = 2`: the timeout on attempt 0 moves the loop
to attempt 1, and the probe only depends on its first two attempt results. -/
theorem scan_socket_retry_witness :
    (0 + 1 < 2 →
      scanSocketAux 2 9 ipStrW attW sockW 0 (2 - 0) =
        scanSocketAux 2 9 ipStrW attW sockW (0 + 1) (2 - (0 + 1)))
    ∧ (0 + 1 = 2 →
      scanSocketAux 2 9 ipStrW attW sockW 0 (2 - 0) =
        ProbeResult.err (appendIpMsg (("t").toList) ipStrW sockW) sockW)
    ∧ scanSocket 2 9 ipStrW attW sockW = scanSocket 2 9 ipStrW attW sockW :=
  scan_socket_retry 2 9 0 ipStrW attW attW sockW (("t").toList) (by decide)
    (by decide) (fun j hj => rfl)

lemma scanSocketAux_fatal (tries batch : Nat) (ipStr : Nat → List Char)
    (att : Nat → AttemptRes) (sock : SocketAddr) (msg : List Char) (k : Nat)
    (hk : k < tries) (hfa : att k = AttemptRes.connErr msg)
    (htm : tmof msg = true)
    (hbefore : ∀ j, j < k → isFailMsg (att j) ≠ none) :
    ∀ d ntry, ntry ≤ k → k - ntry = d →
      scanSocketAux tries batch ipStr att sock ntry (tries - ntry) =
        ProbeResult.fatal batch := by
  intro d
  induction d with
  | zero =>
    intro ntry hle hd
    have : ntry = k := by omega
    subst this
    rw [show tries - ntry = (tries - ntry - 1) + 1 from by omega]
    simp only [scanSocketAux, hfa]
    rw [if_pos htm]
  | succ n ih =>
    intro ntry hle hd
    have hlt : ntry < k := by omega
    have hnf := hbefore ntry hlt
    rw [show tries - ntry = (tries - (ntry + 1)) + 1 from by omega]
    cases ha : att ntry with
    | connOk b =>
      rw [ha] at hnf
      simp [isFailMsg] at hnf
    | connErr m =>
      rw [ha] at hnf
      simp only [isFailMsg] at hnf
      by_cases htm' : tmof m
      · rw [if_pos htm'] at hnf
        exact absurd rfl hnf
      · simp only [scanSocketAux, ha]
        rw [if_neg htm', if_neg (by omega)]
        exact ih (ntry + 1) (by omega) (by omega)
    | timeout m =>
      simp only [scanSocketAux, ha]
      rw [if_neg (by omega)]
      exact ih (ntry + 1) (by omega) (by omega)

lemma scanSocketAux_terminal (tries batch : Nat) (ipStr : Nat → List Char)
    (attc : Nat → AttemptRes) (sock : SocketAddr)
    (hclean : ∀ j m, j < tries → attc j = AttemptRes.connErr m → tmof m = false) :
    ∀ rem ntry, rem = tries - ntry → ntry < tries →
      isTerminalOutcome (scanSocketAux tries batch ipStr attc sock ntry rem) = true := by
  intro rem
  induction rem with
  | zero => intro ntry hr hlt; omega
  | succ n ih =>
    intro ntry hr hlt
    cases ha : attc ntry with
    | connOk b =>
      cases b <;> simp [scanSocketAux, ha, isTerminalOutcome]
    | connErr m =>
      have htm := hclean ntry m hlt ha
      simp only [scanSocketAux, ha]
      rw [if_neg (by simp [htm])]
      by_cases hl : ntry = tries - 1
      · rw [if_pos hl]
        simp [isTerminalOutcome]
      · rw [if_neg hl]
        exact ih (ntry + 1) (by omega) (by omega)
    | timeout m =>
      simp only [scanSocketAux, ha]
      by_cases hl : ntry = tries - 1
      · rw [if_pos hl]
        simp [isTerminalOutcome]
      · rw [if_neg hl]
        exact ih (ntry + 1) (by omega) (by omega)

/-- Claim C5: a connect error whose message contains (case-insensitively)
"too many open files", reached at attempt `k` after `k` retryable failures,
makes the probe abort fatally with a diagnostic carrying the current `batch`
value; and this is the sole unrecoverable outcome: an attempt function with
no such error always yields an Open or Closed Outcome (never the fatal panic,
never the unreachable marker), so every other per-endpoint error is converted
into a Closed Outcome and does not propagate out of the scan loop. -/
theorem scan_socket_fd_fatal (tries batch k : Nat) (ipStr : Nat → List Char)
    (att attc : Nat → AttemptRes) (sock : SocketAddr) (msg : List Char)
    (ht : 1 ≤ tries) (hk : k < tries) (hfa : att k = AttemptRes.connErr msg)
    (htm : tmof msg = true)
    (hbefore : ∀ j, j < k → isFailMsg (att j) ≠ none)
    (hclean : ∀ j m, j < tries → attc j = AttemptRes.connErr m → tmof m = false) :
    scanSocket tries batch ipStr att sock = ProbeResult.fatal batch
    ∧ isTerminalOutcome (scanSocket tries batch ipStr attc sock) = true := by
  constructor
  · have h := scanSocketAux_fatal tries batch ipStr att sock msg k hk hfa htm
      hbefore k 0 (by omega) (by omega)
    rw [Nat.sub_zero] at h
    exact h
  · exact scanSocketAux_terminal tries batch ipStr attc sock hclean tries 0
      (by omega) (by omega)

/-- Attempt results for the fatal branch of the C5 witness: the very first
connect attempt reports file-descriptor exhaustion. -/
def attF : Nat → AttemptRes := fun _ => AttemptRes.connErr tmofNeedle

/-- Attempt results for the clean branch of the C5 witness: every attempt
times out. -/
def attC : Nat → AttemptRes := fun _ => AttemptRes.timeout (("t").toList)

/-- Witness for C5 with `tries = 1`, `batch = 7`: the exhaustion error aborts
with the batch value in the diagnostic, while a plain timeout yields an
ordinary Outcome. -/
theorem scan_socket_fd_fatal_witness :
    scanSocket 1 7 ipStrW attF sockW = ProbeResult.fatal 7
    ∧ isTerminalOutcome (scanSocket 1 7 ipStrW attC sockW) = true :=
  scan_socket_fd_fatal 1 7 0 ipStrW attF attC sockW tmofNeedle (by decide)
    (by decide) rfl (by decide) (fun j hj => absurd hj (Nat.not_lt_zero j))
    (fun j m hj h => AttemptRes.noConfusion h)

/-- Claim C9: at any attempt whose connect succeeds, the probe issues the
shutdown and terminates immediately — as Open when the shutdown succeeds, and
as a Closed Outcome (reason "Shutdown error") when the shutdown fails —
regardless of how many tries remain: no further connect attempt is made. -/
theorem scan_socket_shutdown (tries batch k : Nat) (ipStr : Nat → List Char)
    (att : Nat → AttemptRes) (sock : SocketAddr) (b : Bool)
    (hk : k < tries) (hok : att k = AttemptRes.connOk b) :
    scanSocketAux tries batch ipStr att sock k (tries - k) =
      (if b then ProbeResult.ok sock else ProbeResult.err shutdownErrMsg sock) := by
  rw [show tries - k = (tries - k - 1) + 1 from by omega]
  simp only [scanSocketAux, hok]

/-- Attempt results for the C9 witness: a timeout on attempt 0, then a
successful connect whose shutdown fails. -/
def attS : Nat → AttemptRes := fun j =>
  if j = 0 then AttemptRes.timeout (("t").toList) else AttemptRes.connOk false

/-- Witness for C9 with `tries = 3` at attempt index 1: the failed shutdown
terminates the probe as Closed even though two tries remain. -/
theorem scan_socket_shutdown_witness :
    scanSocketAux 3 9 ipStrW attS sockW 1 (3 - 1) =
      (if false then ProbeResult.ok sockW
       else ProbeResult.err shutdownErrMsg sockW) :=
  scan_socket_shutdown 3 9 1 ipStrW attS sockW false (by decide) (by decide)

/-- The effectful collaborators of target expansion, as oracles:
`cidr s` models `IpCidr::from_str(s)` followed by iterating the block
(`some` on a parse success); `platform s` models `s.to_socket_addrs()`
(`some addrs` on `Ok`, with the IP of each yielded address, `none` on `Err`);
`alt s` models `alt_resolver.lookup_ip(s)`; `fileLines s` models the
`is_file` check plus `File::open`/`BufReader::lines` (`some` holds the
successfully read lines). -/
structure ResolveEnv where
  cidr : List Char → Option (List Nat)
  platform : List Char → Option (List Nat)
  alt : List Char → Option (List Nat)
  fileLines : List Char → Option (List (List Char))

/-- The `":80"` suffix appended by `address_parse` before the
`to_socket_addrs` lookup (`format!("{}:{}", &addr, 80)`). -/
def port80Suffix : List Char := (":80").toList

/-- Model of `domain_name_resolve_to_ip`: try the platform resolver on the
bare token and keep every address; on failure try the fallback TLS resolver
and keep every address; otherwise return the empty sequence. -/
def domain_name_resolve_to_ip (env : ResolveEnv) (source : List Char) :
    List Nat :=
  match env.platform source with
  | some addrs => addrs
  | none =>
    match env.alt source with
    | some addrs => addrs
    | none => []

/-- Model of `address_parse`: first the CIDR parse (all addresses of the
block); else `to_socket_addrs` on `addr:80`, keeping only the FIRST address
(`vec![iter.next().unwrap().ip()]`; `none` models the `unwrap` panic on an
empty iterator); else `domain_name_resolve_to_ip`. -/
def address_parse (env : ResolveEnv) (addr : List Char) : Option (List Nat) :=
  match env.cidr addr with
  | some l => some l
  | none =>
    match env.platform (addr ++ port80Suffix) with
    | some [] => none
    | some (a :: _) => some [a]
    | none => some (domain_name_resolve_to_ip env addr)

/-- The environment refuting C8: no CIDR parse, the platform resolver
succeeds on `name:80` with two addresses, and the fallback resolver is never
consulted. -/
def env8 : ResolveEnv where
  cidr := fun _ => none
  platform := fun s => if s = ("name").toList ++ port80Suffix then some [1, 2] else none
  alt := fun _ => none
  fileLines := fun _ => none

/-- Counterexample to C8: for the DNS-name token `"name"` the platform
resolver succeeds with the two addresses `[1, 2]`, yet `address_parse`
retains only the first: the claim "whichever resolver succeeds, all
addresses it returns are retained" is false on the code. -/
theorem address_parse_first_only :
    env8.platform (("name").toList ++ port80Suffix) = some [1, 2]
    ∧ address_parse env8 (("name").toList) = some [1] := by
  constructor
  · rfl
  · rfl

/-- Claim C8, amended: for a token that is not a CIDR block, resolution is
attempted first via the platform resolver on `token:80`, and a success there
retains only the FIRST returned address; only on its failure does
`domain_name_resolve_to_ip` run, which retries the platform resolver on the
bare token and, on failure, the fallback recursive resolver over TLS — and in
those two fallback paths all returned addresses are retained. -/
theorem address_parse_resolution_order (env : ResolveEnv) (addr : List Char)
    (a : Nat) (rest l : List Nat) (hc : env.cidr addr = none) :
    (env.platform (addr ++ port80Suffix) = some (a :: rest) →
      address_parse env addr = some [a])
    ∧ (env.platform (addr ++ port80Suffix) = none →
        env.platform addr = some l → address_parse env addr = some l)
    ∧ (env.platform (addr ++ port80Suffix) = none →
        env.platform addr = none → env.alt addr = some l →
        address_parse env addr = some l) := by
  refine ⟨?_, ?_, ?_⟩
  · intro hp
    unfold address_parse
    rw [hc, hp]
  · intro hp hbare
    unfold address_parse
    rw [hc, hp]
    unfold domain_name_resolve_to_ip
    rw [hbare]
  · intro hp hbare halt
    unfold address_parse
    rw [hc, hp]
    unfold domain_name_resolve_to_ip
    rw [hbare, halt]

/-- Witness for the amended C8 on `env8`: the platform resolver succeeds on
`name:80` with `[1, 2]` and only `1` is retained. -/
theorem address_parse_resolution_order_witness :
    (env8.platform (("name").toList ++ port80Suffix) = some (1 :: [2]) →
      address_parse env8 (("name").toList) = some [1])
    ∧ (env8.platform (("name").toList ++ port80Suffix) = none →
        env8.platform (("name").toList) = some [] →
        address_parse env8 (("name").toList) = some [])
    ∧ (env8.platform (("name").toList ++ port80Suffix) = none →
        env8.platform (("name").toList) = none → env8.alt (("name").toList) = some [] →
        address_parse env8 (("name").toList) = some []) :=
  address_parse_resolution_order env8 (("name").toList) 1 [2] [] rfl

/-- Model of `read_addresses_from_file`: every successfully read line is fed
through `address_parse`; a panic inside any line's parse aborts. -/
def read_addresses_from_file (env : ResolveEnv) (lines : List (List Char)) :
    Option (List Nat) :=
  (collectOpt (address_parse env) lines).map List.flatten

/-- Model of `addresses_parse`: strip whitespace, split on commas, skip empty
tokens; each token goes through `address_parse`, and a token expanding to
nothing falls back to being read as a file of targets (a token that is not a
readable file only prints a diagnostic and contributes nothing); the final
sequence is deduplicated preserving first occurrence. -/
def addresses_parse (env : ResolveEnv) (addresses : List Char) :
    Option (List Nat) :=
  (collectOpt (fun addr =>
      (address_parse env addr).bind (fun parsed =>
        if parsed.isEmpty then
          match env.fileLines addr with
          | none => some []
          | some lines => read_addresses_from_file env lines
        else some parsed))
    ((splitOnChar ',' (stripWs addresses)).filter (fun t => !t.isEmpty))).map
    (fun ls => dedupFirst ls.flatten)

/-- Scanning mode (`QScanType`). -/
inductive QScanType
  | TcpConnect
deriving DecidableEq

/-- Printing mode while scanning (`QSPrintMode`). -/
inductive QSPrintMode
  | NonRealTime
  | RealTime
  | RealTimeAll
deriving DecidableEq

/-- The configured engine state (`QScanner`). -/
structure QScanner where
  ips : List Nat
  ports : List Nat
  scan_type : QScanType
  print_mode : QSPrintMode
  batch : Nat
  toMs : Nat
  tries : Nat
  last_results : Option (List QScanTcpConnectResult)
deriving DecidableEq

/-- Model of `QScanner::new` with the defaults `batch = 2500`,
`timeout = 1000` ms, `tries = max(1, 1) = 1`. -/
def QScanner.new (env : ResolveEnv) (addresses ports : List Char) :
    Option QScanner :=
  match addresses_parse env addresses, ports_parse ports with
  | some ips, some ps =>
    some ⟨ips, ps, QScanType.TcpConnect, QSPrintMode.NonRealTime, 2500, 1000,
      Nat.max 1 1, none⟩
  | _, _ => none

/-- Model of `set_batch`: stores the argument verbatim. -/
def QScanner.set_batch (s : QScanner) (batch : Nat) : QScanner :=
  { s with batch := batch }

/-- Model of `set_ntries`: `NonZeroU8::new(max(ntries, 1))`. -/
def QScanner.set_ntries (s : QScanner) (ntries : Nat) : QScanner :=
  { s with tries := Nat.max ntries 1 }

/-- Model of `set_timeout_ms`. -/
def QScanner.set_timeout_ms (s : QScanner) (to_ms : Nat) : QScanner :=
  { s with toMs := to_ms }

/-- Model of `set_targets`: both strings re-parsed, old targets discarded. -/
def QScanner.set_targets (env : ResolveEnv) (s : QScanner)
    (addresses ports : List Char) : Option QScanner :=
  match addresses_parse env addresses, ports_parse ports with
  | some ips, some ps => some { s with ips := ips, ports := ps }
  | _, _ => none

/-- Model of `add_targets`: extend both sequences with the parsed strings,
then `unique()` over the whole sequence. -/
def QScanner.add_targets (env : ResolveEnv) (s : QScanner)
    (addresses ports : List Char) : Option QScanner :=
  match addresses_parse env addresses, ports_parse ports with
  | some ips, some ps =>
    some { s with ips := dedupFirst (s.ips ++ ips),
                  ports := dedupFirst (s.ports ++ ps) }
  | _, _ => none

/-- Model of `set_vec_targets`: the given vectors are stored verbatim (no
deduplication). -/
def QScanner.set_vec_targets (s : QScanner) (ips : List Nat)
    (ports : List Nat) : QScanner :=
  { s with ips := ips, ports := ports }

/-- Model of `add_vec_targets`: extend then `unique()` over the whole
sequence. -/
def QScanner.add_vec_targets (s : QScanner) (ips : List Nat)
    (ports : List Nat) : QScanner :=
  { s with ips := dedupFirst (s.ips ++ ips),
           ports := dedupFirst (s.ports ++ ports) }

lemma mem_dedupFirstAux [DecidableEq α] {x : α} :
    ∀ {l seen : List α}, x ∈ dedupFirstAux l seen ↔ x ∈ l ∧ x ∉ seen := by
  intro l
  induction l with
  | nil => intro seen; simp [dedupFirstAux]
  | cons a as ih =>
    intro seen
    by_cases ha : a ∈ seen
    · simp only [dedupFirstAux, if_pos ha]
      constructor
      · intro h
        have h2 := ih.mp h
        exact ⟨List.mem_cons_of_mem _ h2.1, h2.2⟩
      · rintro ⟨hx, hns⟩
        rcases List.mem_cons.mp hx with rfl | h2
        · exact absurd ha hns
        · exact ih.mpr ⟨h2, hns⟩
    · simp only [dedupFirstAux, if_neg ha]
      constructor
      · intro h
        rcases List.mem_cons.mp h with rfl | h2
        · exact ⟨List.mem_cons_self _ _, ha⟩
        · have h3 := ih.mp h2
          exact ⟨List.mem_cons_of_mem _ h3.1,
            fun hs => h3.2 (List.mem_cons_of_mem _ hs)⟩
      · rintro ⟨hx, hns⟩
        rcases List.mem_cons.mp hx with rfl | h2
        · exact List.mem_cons_self _ _
        · by_cases hxa : x = a
          · subst hxa
            exact List.mem_cons_self _ _
          · refine List.mem_cons_of_mem _ (ih.mpr ⟨h2, ?_⟩)
            simp [List.mem_cons, hxa, hns]

lemma nodup_dedupFirstAux [DecidableEq α] :
    ∀ (l seen : List α), (dedupFirstAux l seen).Nodup := by
  intro l
  induction l with
  | nil => intro seen; exact List.nodup_nil
  | cons a as ih =>
    intro seen
    by_cases ha : a ∈ seen
    · simp only [dedupFirstAux, if_pos ha]
      exact ih seen
    · simp only [dedupFirstAux, if_neg ha]
      refine List.nodup_cons.mpr ⟨?_, ih (a :: seen)⟩
      intro hmem
      exact (mem_dedupFirstAux.mp hmem).2 (List.mem_cons_self a seen)

lemma dedupFirst_nodup [DecidableEq α] (l : List α) : (dedupFirst l).Nodup :=
  nodup_dedupFirstAux l []

lemma mem_dedupFirst [DecidableEq α] {x : α} {l : List α} :
    x ∈ dedupFirst l ↔ x ∈ l := by
  simp [dedupFirst, mem_dedupFirstAux]

lemma ports_parse_nodup {p : List Char} {ps : List Nat}
    (h : ports_parse p = some ps) : ps.Nodup := by
  unfold ports_parse at h
  cases hco : collectOpt tokenPorts
      ((splitOnChar ',' (stripWs p)).filter (fun t => !t.isEmpty)) with
  | none => rw [hco] at h; simp at h
  | some ls =>
    rw [hco] at h
    simp only [Option.map_some', Option.some.injEq] at h
    rw [← h]
    exact dedupFirst_nodup _

lemma addresses_parse_nodup {env : ResolveEnv} {a : List Char} {ips : List Nat}
    (h : addresses_parse env a = some ips) : ips.Nodup := by
  unfold addresses_parse at h
  cases hco : collectOpt (fun addr =>
      (address_parse env addr).bind (fun parsed =>
        if parsed.isEmpty then
          match env.fileLines addr with
          | none => some []
          | some lines => read_addresses_from_file env lines
        else some parsed))
      ((splitOnChar ',' (stripWs a)).filter (fun t => !t.isEmpty)) with
  | none => rw [hco] at h; simp at h
  | some ls =>
    rw [hco] at h
    simp only [Option.map_some', Option.some.injEq] at h
    rw [← h]
    exact dedupFirst_nodup _

/-- The scanner state used by the C2 counterexample and witness: empty
targets, the construction defaults. -/
def qsW : QScanner :=
  ⟨[], [], QScanType.TcpConnect, QSPrintMode.NonRealTime, 2500, 1000, 1, none⟩

/-- Counterexample to C2: `set_batch(0)` stores `0`, violating `batch ≥ 1`,
and `set_vec_targets` stores the given vectors verbatim, so a duplicated
input vector violates the no-duplicates invariant. -/
theorem scanner_mutator_counterexample :
    (qsW.set_batch 0).batch = 0
    ∧ (qsW.set_vec_targets [7, 7] [80]).ips = [7, 7]
    ∧ ¬ (qsW.set_vec_targets [7, 7] [80]).ips.Nodup :=
  ⟨rfl, rfl, by decide⟩

/-- Claim C2, amended: every mutator except `set_batch` and
`set_vec_targets` preserves the invariants — `set_ntries` forces `tries ≥ 1`;
`set_targets` installs exactly the parsed sequences (themselves
first-occurrence-deduplicated by the parsers), `add_targets` installs exactly
the append-then-dedup `dedupFirst (old ++ parsed)` of both sequences (keeping
every old element, new elements after them in first-seen order), and
`add_vec_targets` likewise installs exactly `dedupFirst (old ++ given)`; none
of these touches `tries` or `batch` — while `set_batch` stores its argument
verbatim (so `batch = 0` is representable) and `set_vec_targets` stores the
given vectors verbatim (duplicates included). -/
theorem scanner_mutators_amended (env : ResolveEnv) (s : QScanner)
    (a p : List Char) (ipsNew psNew iv pv : List Nat) (n b : Nat)
    (hstr : 1 ≤ s.tries)
    (ha : addresses_parse env a = some ipsNew)
    (hp : ports_parse p = some psNew) :
    ((s.set_batch b).batch = b ∧ (s.set_batch b).ips = s.ips
      ∧ (s.set_batch b).ports = s.ports ∧ 1 ≤ (s.set_batch b).tries)
    ∧ (1 ≤ (s.set_ntries n).tries ∧ (s.set_ntries n).ips = s.ips
      ∧ (s.set_ntries n).ports = s.ports ∧ (s.set_ntries n).batch = s.batch)
    ∧ (QScanner.set_targets env s a p =
        some { s with ips := ipsNew, ports := psNew }
      ∧ ipsNew.Nodup ∧ psNew.Nodup)
    ∧ (QScanner.add_targets env s a p =
        some { s with ips := dedupFirst (s.ips ++ ipsNew),
                      ports := dedupFirst (s.ports ++ psNew) }
      ∧ (dedupFirst (s.ips ++ ipsNew)).Nodup
      ∧ (dedupFirst (s.ports ++ psNew)).Nodup
      ∧ s.ips ⊆ dedupFirst (s.ips ++ ipsNew)
      ∧ s.ports ⊆ dedupFirst (s.ports ++ psNew))
    ∧ ((s.set_vec_targets iv pv).ips = iv ∧ (s.set_vec_targets iv pv).ports = pv
      ∧ 1 ≤ (s.set_vec_targets iv pv).tries
      ∧ (s.set_vec_targets iv pv).batch = s.batch)
    ∧ ((s.add_vec_targets iv pv).ips = dedupFirst (s.ips ++ iv)
      ∧ (s.add_vec_targets iv pv).ports = dedupFirst (s.ports ++ pv)
      ∧ (s.add_vec_targets iv pv).ips.Nodup
      ∧ (s.add_vec_targets iv pv).ports.Nodup
      ∧ 1 ≤ (s.add_vec_targets iv pv).tries
      ∧ (s.add_vec_targets iv pv).batch = s.batch) := by
  refine ⟨⟨rfl, rfl, rfl, hstr⟩, ⟨le_max_right n 1, rfl, rfl, rfl⟩,
    ⟨?_, addresses_parse_nodup ha, ports_parse_nodup hp⟩,
    ⟨?_, dedupFirst_nodup _, dedupFirst_nodup _, ?_, ?_⟩,
    ⟨rfl, rfl, hstr, rfl⟩,
    ⟨rfl, rfl, dedupFirst_nodup _, dedupFirst_nodup _, hstr, rfl⟩⟩
  · unfold QScanner.set_targets
    rw [ha, hp]
  · unfold QScanner.add_targets
    rw [ha, hp]
  · intro x hx
    exact mem_dedupFirst.mpr (List.mem_append_left _ hx)
  · intro x hx
    exact mem_dedupFirst.mpr (List.mem_append_left _ hx)

/-- An inert resolution environment for the C2 witness: nothing parses as a
CIDR, nothing resolves, nothing is a file. -/
def envW : ResolveEnv :=
  ⟨fun _ => none, fun _ => none, fun _ => none, fun _ => none⟩

/-- Witness for the amended C2 on the default scanner: empty address string,
port string `"80"` (parsing to `[80]`), `iv = [5]`, `pv = [6]`, `n = 0`,
`b = 3`. -/
theorem scanner_mutators_amended_witness :
    ((qsW.set_batch 3).batch = 3 ∧ (qsW.set_batch 3).ips = qsW.ips
      ∧ (qsW.set_batch 3).ports = qsW.ports ∧ 1 ≤ (qsW.set_batch 3).tries)
    ∧ (1 ≤ (qsW.set_ntries 0).tries ∧ (qsW.set_ntries 0).ips = qsW.ips
      ∧ (qsW.set_ntries 0).ports = qsW.ports
      ∧ (qsW.set_ntries 0).batch = qsW.batch)
    ∧ (QScanner.set_targets envW qsW [] (("80").toList) =
        some { qsW with ips := [], ports := [80] }
      ∧ ([] : List Nat).Nodup ∧ ([80] : List Nat).Nodup)
    ∧ (QScanner.add_targets envW qsW [] (("80").toList) =
        some { qsW with ips := dedupFirst (qsW.ips ++ []),
                        ports := dedupFirst (qsW.ports ++ [80]) }
      ∧ (dedupFirst (qsW.ips ++ [])).Nodup
      ∧ (dedupFirst (qsW.ports ++ [80])).Nodup
      ∧ qsW.ips ⊆ dedupFirst (qsW.ips ++ [])
      ∧ qsW.ports ⊆ dedupFirst (qsW.ports ++ [80]))
    ∧ ((qsW.set_vec_targets [5] [6]).ips = [5]
      ∧ (qsW.set_vec_targets [5] [6]).ports = [6]
      ∧ 1 ≤ (qsW.set_vec_targets [5] [6]).tries
      ∧ (qsW.set_vec_targets [5] [6]).batch = qsW.batch)
    ∧ ((qsW.add_vec_targets [5] [6]).ips = dedupFirst (qsW.ips ++ [5])
      ∧ (qsW.add_vec_targets [5] [6]).ports = dedupFirst (qsW.ports ++ [6])
      ∧ (qsW.add_vec_targets [5] [6]).ips.Nodup
      ∧ (qsW.add_vec_targets [5] [6]).ports.Nodup
      ∧ 1 ≤ (qsW.add_vec_targets [5] [6]).tries
      ∧ (qsW.add_vec_targets [5] [6]).batch = qsW.batch) :=
  scanner_mutators_amended envW qsW [] (("80").toList) [] [80] [5] [6] 0 3
    (by decide) (by decide) (by decide)
